import Mathlib

/-!
Shallow embedding of the movement/physics/animation core of the
`puri-platformer` crate (`src/main.rs`, `src/animation.rs`).

Modelling conventions:
* `f32` values are modelled as exact rationals (`ℚ`); `usize` as `ℕ`.
* Bevy `Vec3` translations are modelled by their `(x, y)` components,
  the only ones any of the embedded systems reads or writes
  (`Vec3::Y * FALL_SPEED * dt` has `z = 0`, and `check_hit` ignores `z`).
* ECS component presence/absence (the `Jump` component) is an `Option ℚ`
  field on the player state; system query filters (`With`/`Without`) become
  matches on that field.
* The external input resource `Input<KeyCode>` is abstracted to the four
  boolean queries the systems make: `any_just_pressed [W, Up, Space]`,
  `any_pressed [W, Up, Space]`, `any_pressed [A, Left]`,
  `any_pressed [D, Right]`.
* One simulation tick runs `move_player`, `player_jump`, `player_fall`
  in order with component changes visible to the next system in the chain.
-/

/-- A 2D vector: the `(x, y)` part of a Bevy `Vec2`/`Vec3` with `f32` as `ℚ`. -/
structure Vec2 where
  x : ℚ
  y : ℚ
  deriving DecidableEq, Repr

/-- Embeds `struct HitBox(Vec2)`: full width/height of an axis-aligned box. -/
structure HitBox where
  size : Vec2
  deriving DecidableEq, Repr

/-- Embeds `const MOVE_SPEED: f32 = 100.;`. -/
def MOVE_SPEED : ℚ := 100

/-- Embeds `const FALL_SPEED: f32 = 98.;`. -/
def FALL_SPEED : ℚ := 98

/-- Embeds `fn check_hit` from `main.rs`: strict open-interval AABB overlap on both axes. -/
def check_hit (hitbox : HitBox) (offset : Vec2)
    (other_hitbox : HitBox) (other_offset : Vec2) : Bool :=
  let h_size := hitbox.size.y / 2
  let w_size := hitbox.size.x / 2
  let oh_size := other_hitbox.size.y / 2
  let ow_size := other_hitbox.size.x / 2
  decide (offset.x + w_size > other_offset.x - ow_size)
    && decide (offset.x - w_size < other_offset.x + ow_size)
    && decide (offset.y + h_size > other_offset.y - oh_size)
    && decide (offset.y - h_size < other_offset.y + oh_size)

/-- The boolean input queries made by the player systems. -/
structure PlayerInput where
  /-- Result of `input.any_just_pressed([KeyCode::W, KeyCode::Up, KeyCode::Space])`. -/
  jumpJustPressed : Bool
  /-- Result of `input.any_pressed([KeyCode::W, KeyCode::Up, KeyCode::Space])`. -/
  jumpPressed : Bool
  /-- Result of `input.any_pressed([KeyCode::A, KeyCode::Left])`. -/
  leftPressed : Bool
  /-- Result of `input.any_pressed([KeyCode::D, KeyCode::Right])`. -/
  rightPressed : Bool
  deriving DecidableEq, Repr

/-- The player entity's mutable state: its `Transform` translation and the
optional `Jump(f32)` component (`some energy` iff the component is attached). -/
structure PlayerState where
  translation : Vec2
  jump : Option ℚ
  deriving DecidableEq, Repr

/-- Embeds `fn move_player` from `main.rs`: on a jump rising edge insert `Jump(100.)`
and return early; otherwise apply horizontal movement, left before right. -/
def move_player (input : PlayerInput) (dt : ℚ) (s : PlayerState) : PlayerState :=
  if input.jumpJustPressed then
    { s with jump := some 100 }
  else if input.leftPressed then
    { s with translation := { s.translation with
        x := s.translation.x - MOVE_SPEED * dt } }
  else if input.rightPressed then
    { s with translation := { s.translation with
        x := s.translation.x + MOVE_SPEED * dt } }
  else s

/-- Embeds `fn player_jump` from `main.rs`: runs only while the `Jump` component is
attached; rises by `jump_power = min(dt * FALL_SPEED * 2, energy)`, drains
energy (doubled when the jump keys are released), removes `Jump` when the
drained energy is `≤ 0`. -/
def player_jump (input : PlayerInput) (dt : ℚ) (s : PlayerState) : PlayerState :=
  match s.jump with
  | none => s
  | some energy =>
    let jump_power := min (dt * FALL_SPEED * 2) energy
    let energy' := energy -
      (if input.jumpPressed then jump_power else jump_power * 2)
    { translation := { s.translation with y := s.translation.y + jump_power },
      jump := if energy' ≤ 0 then none else some energy' }

/-- Embeds `fn player_fall` from `main.rs`: runs only while the player has no `Jump`
component (`Without<Jump>`); computes the candidate position one gravity step
down and commits it unless it overlaps any other entity's `HitBox`. -/
def player_fall (obstacles : List (HitBox × Vec2)) (p_hitbox : HitBox)
    (dt : ℚ) (s : PlayerState) : PlayerState :=
  match s.jump with
  | some _ => s
  | none =>
    let new_pos : Vec2 :=
      { x := s.translation.x, y := s.translation.y - FALL_SPEED * dt }
    if obstacles.any (fun ob => check_hit p_hitbox new_pos ob.1 ob.2) then s
    else { s with translation := new_pos }

/-- One `Update` pass over the chained player systems
`(move_player, player_jump, player_fall).chain()`. -/
def tick (obstacles : List (HitBox × Vec2)) (p_hitbox : HitBox)
    (input : PlayerInput) (dt : ℚ) (s : PlayerState) : PlayerState :=
  player_fall obstacles p_hitbox dt (player_jump input dt (move_player input dt s))

/-- Embeds `fn ground_detection` from `main.rs`: given the player's translation, the
current `Grounded` flag and the `Local<Transform>` remembered translation,
returns the updated flag and the overwritten remembered translation. -/
def ground_detection (translation : Vec2) (grounded : Bool) (last : Vec2) :
    Bool × Vec2 :=
  let current := if translation.y = last.y then true else false
  let grounded' := if current ≠ grounded then current else grounded
  (grounded', translation)

/-- Runs `ground_detection` over a sequence of per-tick player translations,
collecting the flag read on each tick. -/
def ground_flags (grounded : Bool) (last : Vec2) :
    List Vec2 → List Bool
  | [] => []
  | p :: ps =>
    let r := ground_detection p grounded last
    r.1 :: ground_flags r.1 r.2 ps

/-- Embeds `struct SpriteAnimation { len: usize, frame_time: f32 }`. -/
structure SpriteAnimation where
  len : ℕ
  frame_time : ℚ
  deriving DecidableEq, Repr

/-- The per-entity animation runtime: `TextureAtlasSprite.index` and the
`FrameTime(f32)` component. -/
structure AnimState where
  index : ℕ
  frame_time : ℚ
  deriving DecidableEq, Repr

/-- Rust `as usize` on an `f32` modelled as `ℚ`: truncation toward zero,
saturating at `0` for negative inputs. -/
def ratAsUsize (q : ℚ) : ℕ := (⌊q⌋).toNat

/-- The per-entity body of `fn animate_sprite` (identical in `main.rs` and
`animation.rs`): accumulate `dt`; if a frame period has elapsed, advance the
index by `(frame_time / animation.frame_time) as usize`, wrap it modulo `len`
when it overflows, and subtract one `frame_time` period. -/
def animate_sprite (animation : SpriteAnimation) (dt : ℚ)
    (st : AnimState) : AnimState :=
  let ft := st.frame_time + dt
  if ft ≥ animation.frame_time then
    let frames := ratAsUsize (ft / animation.frame_time)
    let idx := st.index + frames
    let idx' := if idx ≥ animation.len then idx % animation.len else idx
    { index := idx', frame_time := ft - animation.frame_time }
  else
    { st with frame_time := ft }

/-- The energy carried by the player's `Jump` component, `0` when absent. -/
def jumpEnergy (s : PlayerState) : ℚ :=
  match s.jump with
  | some e => e
  | none => 0

/-- Iterated `player_jump` with per-step inputs and deltas (no `move_player`,
hence no re-attachment of the `Jump` component). -/
def jump_run (steps : List (PlayerInput × ℚ)) (s : PlayerState) : PlayerState :=
  steps.foldl (fun st step => player_jump step.1 step.2 st) s

/-! ## Claim theorems -/

/-- C4: `check_hit` is a pure function returning `true` iff the two
axis-aligned boxes, each centered at its given position, overlap strictly on
both axes (open-interval comparisons, no epsilon); in particular, for boxes
`(w=200,h=5)` centered at `(0,-16)` and `(w=18,h=32)` centered at `(0,y)` it
returns `true` iff `|y+16| < 18.5`, and a boundary-exact touch
`|y+16| = 18.5` returns `false`. -/
theorem check_hit_strict_overlap :
    (∀ (b₁ : HitBox) (p₁ : Vec2) (b₂ : HitBox) (p₂ : Vec2),
      check_hit b₁ p₁ b₂ p₂ = true ↔
        |p₁.x - p₂.x| < (b₁.size.x + b₂.size.x) / 2 ∧
        |p₁.y - p₂.y| < (b₁.size.y + b₂.size.y) / 2) ∧
    (∀ y : ℚ,
      (check_hit ⟨⟨200, 5⟩⟩ ⟨0, -16⟩ ⟨⟨18, 32⟩⟩ ⟨0, y⟩ = true ↔
        |y + 16| < 37 / 2) ∧
      (|y + 16| = 37 / 2 →
        check_hit ⟨⟨200, 5⟩⟩ ⟨0, -16⟩ ⟨⟨18, 32⟩⟩ ⟨0, y⟩ = false)) := by
  have hmain : ∀ (b₁ : HitBox) (p₁ : Vec2) (b₂ : HitBox) (p₂ : Vec2),
      check_hit b₁ p₁ b₂ p₂ = true ↔
        |p₁.x - p₂.x| < (b₁.size.x + b₂.size.x) / 2 ∧
        |p₁.y - p₂.y| < (b₁.size.y + b₂.size.y) / 2 := by
    intro b₁ p₁ b₂ p₂
    simp only [check_hit, Bool.and_eq_true, decide_eq_true_eq, abs_sub_lt_iff]
    constructor
    · rintro ⟨⟨⟨h₁, h₂⟩, h₃⟩, h₄⟩
      constructor
      · constructor <;> linarith
      · constructor <;> linarith
    · rintro ⟨⟨h₁, h₂⟩, h₃, h₄⟩
      refine ⟨⟨⟨?_, ?_⟩, ?_⟩, ?_⟩ <;> linarith
  refine ⟨hmain, fun y => ⟨?_, ?_⟩⟩
  · rw [hmain]
    rw [show ((⟨0, -16⟩ : Vec2).y - (⟨0, y⟩ : Vec2).y) = -(y + 16) by
      show (-16 : ℚ) - y = -(y + 16); ring]
    rw [abs_neg]
    norm_num
  · intro hy
    rw [Bool.eq_false_iff]
    intro hc
    rw [hmain] at hc
    obtain ⟨-, h⟩ := hc
    rw [show ((⟨0, -16⟩ : Vec2).y - (⟨0, y⟩ : Vec2).y) = -(y + 16) by
      show (-16 : ℚ) - y = -(y + 16); ring] at h
    rw [abs_neg, hy] at h
    norm_num at h

/-- Witness for C4 at the boundary touch `y = 5/2` (so `|y + 16| = 18.5`). -/
theorem check_hit_strict_overlap_witness :
    |(5 / 2 : ℚ) + 16| = 37 / 2 ∧
    check_hit ⟨⟨200, 5⟩⟩ ⟨0, -16⟩ ⟨⟨18, 32⟩⟩ ⟨0, 5 / 2⟩ = false :=
  ⟨by norm_num, (check_hit_strict_overlap.2 (5 / 2)).2 (by norm_num)⟩

/-- C3: on a jump rising edge `move_player` attaches `Jump(100.)` and moves
nothing; otherwise held MoveLeft subtracts `MOVE_SPEED·dt` from `x` (left wins
a simultaneous press since it is checked first), else held MoveRight adds it;
the vertical position is never changed; `MOVE_SPEED = 100`. -/
theorem move_player_claim :
    MOVE_SPEED = 100 ∧
    ∀ (input : PlayerInput) (dt : ℚ) (s : PlayerState),
      (move_player input dt s).translation.y = s.translation.y ∧
      (input.jumpJustPressed = true →
        (move_player input dt s).jump = some 100 ∧
        (move_player input dt s).translation.x = s.translation.x) ∧
      (input.jumpJustPressed = false →
        (move_player input dt s).jump = s.jump ∧
        (input.leftPressed = true →
          (move_player input dt s).translation.x =
            s.translation.x - MOVE_SPEED * dt) ∧
        (input.leftPressed = false → input.rightPressed = true →
          (move_player input dt s).translation.x =
            s.translation.x + MOVE_SPEED * dt) ∧
        (input.leftPressed = false → input.rightPressed = false →
          move_player input dt s = s)) := by
  refine ⟨rfl, fun input dt s => ?_⟩
  obtain ⟨jj, jp, lp, rp⟩ := input
  cases jj <;> cases lp <;> cases rp <;>
    simp [move_player]

/-- Witness for C3 at a rising edge with MoveLeft also held. -/
theorem move_player_claim_witness :
    (move_player ⟨true, false, true, false⟩ 1 ⟨⟨3, 4⟩, none⟩).jump = some 100 ∧
    (move_player ⟨true, false, true, false⟩ 1 ⟨⟨3, 4⟩, none⟩).translation.x =
      (PlayerState.mk ⟨3, 4⟩ none).translation.x :=
  (move_player_claim.2 ⟨true, false, true, false⟩ 1 ⟨⟨3, 4⟩, none⟩).2.1 rfl

/-- C2: while a `Jump` with energy `e > 0` is attached and `dt ≥ 0`,
`player_jump` rises by `jump_power = min(dt * FALL_SPEED * 2, e)`
(`FALL_SPEED = 98`), leaves `x` alone, drains `e` by `jump_power` when the
jump keys are held and by `2·jump_power` otherwise, and removes the component
exactly when the drained energy is `≤ 0`. -/
theorem player_jump_claim :
    FALL_SPEED = 98 ∧
    ∀ (input : PlayerInput) (dt : ℚ) (s : PlayerState) (e : ℚ),
      s.jump = some e → 0 < e → 0 ≤ dt →
      (player_jump input dt s).translation.y =
        s.translation.y + min (dt * FALL_SPEED * 2) e ∧
      (player_jump input dt s).translation.x = s.translation.x ∧
      ((player_jump input dt s).jump = none ↔
        e - (if input.jumpPressed = true then min (dt * FALL_SPEED * 2) e
             else 2 * min (dt * FALL_SPEED * 2) e) ≤ 0) ∧
      (∀ e', (player_jump input dt s).jump = some e' →
        e' = e - (if input.jumpPressed = true then min (dt * FALL_SPEED * 2) e
                  else 2 * min (dt * FALL_SPEED * 2) e)) := by
  refine ⟨rfl, fun input dt s e hj _ _ => ?_⟩
  simp only [player_jump, hj]
  cases hp : input.jumpPressed <;>
    simp only [Bool.false_eq_true, if_true, if_false, reduceIte] <;>
    by_cases he : e - min (dt * FALL_SPEED * 2) e * 2 ≤ 0 <;>
    by_cases he' : e - min (dt * FALL_SPEED * 2) e ≤ 0 <;>
    simp_all [mul_comm]

/-- Witness for C2: one held-jump step with `dt = 1/10` from energy `100`. -/
theorem player_jump_claim_witness :
    (player_jump ⟨false, true, false, false⟩ (1 / 10)
        ⟨⟨0, 0⟩, some 100⟩).translation.y =
      (PlayerState.mk ⟨0, 0⟩ (some 100)).translation.y +
        min ((1 / 10) * FALL_SPEED * 2) 100 :=
  (player_jump_claim.2 ⟨false, true, false, false⟩ (1 / 10) ⟨⟨0, 0⟩, some 100⟩
    100 rfl (by norm_num) (by norm_num)).1

/-- C1: when the player has no `Jump` component, `player_fall` forms the
candidate position `current − (0, FALL_SPEED·dt)` (`FALL_SPEED = 98`); if the
candidate overlaps any other entity's hitbox per `check_hit` the whole state is
left unchanged, otherwise `y` drops by exactly `FALL_SPEED·dt` and `x` is
unchanged. -/
theorem player_fall_claim :
    FALL_SPEED = 98 ∧
    ∀ (obstacles : List (HitBox × Vec2)) (p_hitbox : HitBox) (dt : ℚ)
      (s : PlayerState), s.jump = none →
      ((∃ ob ∈ obstacles,
          check_hit p_hitbox ⟨s.translation.x, s.translation.y - FALL_SPEED * dt⟩
            ob.1 ob.2 = true) →
        player_fall obstacles p_hitbox dt s = s) ∧
      ((∀ ob ∈ obstacles,
          check_hit p_hitbox ⟨s.translation.x, s.translation.y - FALL_SPEED * dt⟩
            ob.1 ob.2 = false) →
        (player_fall obstacles p_hitbox dt s).translation.x = s.translation.x ∧
        (player_fall obstacles p_hitbox dt s).translation.y =
          s.translation.y - FALL_SPEED * dt) := by
  refine ⟨rfl, fun obstacles p_hitbox dt s hj => ⟨?_, ?_⟩⟩
  · intro hex
    simp only [player_fall, hj]
    rw [if_pos]
    rw [List.any_eq_true]
    obtain ⟨ob, hmem, hhit⟩ := hex
    exact ⟨ob, hmem, hhit⟩
  · intro hall
    simp only [player_fall, hj]
    rw [if_neg]
    · exact ⟨rfl, rfl⟩
    · rw [List.any_eq_true]
      rintro ⟨ob, hmem, hhit⟩
      rw [hall ob hmem] at hhit
      exact absurd hhit (by simp)

/-- Witness for C1: an unobstructed fall step over the platform hitbox. -/
theorem player_fall_claim_witness :
    (player_fall [(⟨⟨200, 5⟩⟩, ⟨0, -16⟩)] ⟨⟨18, 32⟩⟩ (1 / 10)
        ⟨⟨0, 50⟩, none⟩).translation.x =
      (PlayerState.mk ⟨0, 50⟩ none).translation.x ∧
    (player_fall [(⟨⟨200, 5⟩⟩, ⟨0, -16⟩)] ⟨⟨18, 32⟩⟩ (1 / 10)
        ⟨⟨0, 50⟩, none⟩).translation.y =
      (PlayerState.mk ⟨0, 50⟩ none).translation.y - FALL_SPEED * (1 / 10) :=
  (player_fall_claim.2 [(⟨⟨200, 5⟩⟩, ⟨0, -16⟩)] ⟨⟨18, 32⟩⟩ (1 / 10)
    ⟨⟨0, 50⟩, none⟩ rfl).2 (by
      intro ob hob
      simp only [List.mem_singleton] at hob
      subst hob
      simp only [check_hit, FALL_SPEED]
      norm_num)

/-- C5 counterexample: with `frame_count = 6`, `frame_duration = 1/5 = 0.2s`,
starting index `5` and accumulated time `0`, one tick of `dt = 0.45s` leaves
`frame_index = 1` but `accumulated_time = 0.25s`, not the `0.05s` the claim
predicts: the code subtracts only one `frame_duration`, not the consumed whole
multiples. -/
theorem animate_sprite_counterexample :
    animate_sprite ⟨6, 1 / 5⟩ (9 / 20) ⟨5, 0⟩ = ⟨1, 1 / 4⟩ ∧
    ¬ ((animate_sprite ⟨6, 1 / 5⟩ (9 / 20) ⟨5, 0⟩).frame_time = 1 / 20) := by
  have h : animate_sprite ⟨6, 1 / 5⟩ (9 / 20) ⟨5, 0⟩ = ⟨1, 1 / 4⟩ := by
    simp only [animate_sprite, ratAsUsize]
    norm_num
    decide
  refine ⟨h, ?_⟩
  rw [h]
  norm_num

/-- C5 (amended): when the accumulated time reaches `frame_duration`,
`animate_sprite` advances `frame_index` by
`floor(accumulated_time / frame_duration)` frames in one step, wraps it modulo
`frame_count`, but subtracts only ONE `frame_duration` from the accumulated
time (not the consumed whole multiples); the `dt = 0.45s` example thus leaves
`frame_index = 1` and `accumulated_time = 0.25s`. -/
theorem animate_sprite_amended :
    (∀ (animation : SpriteAnimation) (dt : ℚ) (st : AnimState),
      0 < animation.len → st.index < animation.len →
      animation.frame_time ≤ st.frame_time + dt →
      animate_sprite animation dt st =
        ⟨(st.index + ratAsUsize ((st.frame_time + dt) / animation.frame_time)) %
            animation.len,
          st.frame_time + dt - animation.frame_time⟩) ∧
    animate_sprite ⟨6, 1 / 5⟩ (9 / 20) ⟨5, 0⟩ = ⟨1, 1 / 4⟩ := by
  constructor
  · intro animation dt st hlen hidx hge
    simp only [animate_sprite, ge_iff_le, hge, if_true]
    by_cases hover : animation.len ≤ st.index + ratAsUsize
        ((st.frame_time + dt) / animation.frame_time)
    · simp [hover]
    · simp only [ge_iff_le, hover, if_false]
      rw [Nat.mod_eq_of_lt (Nat.lt_of_not_le hover)]
  · simp only [animate_sprite, ratAsUsize]
    norm_num
    decide

/-- Witness for the amended C5 at the `dt = 0.45s` example. -/
theorem animate_sprite_amended_witness :
    animate_sprite ⟨6, 1 / 5⟩ (9 / 20) ⟨5, 0⟩ =
      ⟨(5 + ratAsUsize ((0 + 9 / 20) / (1 / 5))) % 6, 0 + 9 / 20 - 1 / 5⟩ :=
  animate_sprite_amended.1 ⟨6, 1 / 5⟩ (9 / 20) ⟨5, 0⟩ (by norm_num) (by norm_num)
    (by norm_num)

/-- C6: each tick `ground_detection` sets the flag to `true` iff the current
vertical position equals the value remembered from the immediately preceding
tick (exact equality, no epsilon) and always overwrites the remembered value
with the current position; with the preceding tick's position remembered as
`y = 10`, the sequence `y = 10, 10, 9` reads flags `true, true, false`. -/
theorem ground_detection_claim :
    (∀ (t : Vec2) (g : Bool) (l : Vec2),
      ((ground_detection t g l).1 = true ↔ t.y = l.y) ∧
      (ground_detection t g l).2 = t) ∧
    (∀ (l : Vec2) (g : Bool), l.y = 10 →
      ground_flags g l [⟨0, 10⟩, ⟨0, 10⟩, ⟨0, 9⟩] = [true, true, false]) := by
  constructor
  · intro t g l
    constructor
    · by_cases h : t.y = l.y <;> cases g <;>
        simp [ground_detection, h]
    · rfl
  · intro l g hl
    obtain ⟨lx, ly⟩ := l
    simp only at hl
    subst hl
    cases g <;> simp [ground_flags, ground_detection]

/-- Witness for C6 with the preceding tick's position remembered as `y = 10`. -/
theorem ground_detection_claim_witness :
    ground_flags false ⟨0, 10⟩ [⟨0, 10⟩, ⟨0, 10⟩, ⟨0, 9⟩] =
      [true, true, false] :=
  ground_detection_claim.2 ⟨0, 10⟩ false rfl

/-- Helper: `move_player` attaches `Jump(100.)` on a rising edge and otherwise leaves
the `Jump` component as it was. -/
theorem move_player_jump_eq (input : PlayerInput) (dt : ℚ) (s : PlayerState) :
    (move_player input dt s).jump =
      if input.jumpJustPressed then some 100 else s.jump := by
  obtain ⟨jj, jp, lp, rp⟩ := input
  cases jj <;> cases lp <;> cases rp <;> simp [move_player]

/-- With `dt = 0` the horizontal displacement of `move_player` vanishes. -/
theorem move_player_translation_dt_zero (input : PlayerInput) (s : PlayerState) :
    (move_player input 0 s).translation = s.translation := by
  obtain ⟨⟨x, y⟩, j⟩ := s
  obtain ⟨jj, jp, lp, rp⟩ := input
  cases jj <;> cases lp <;> cases rp <;> simp [move_player]

/-- With `dt = 0` and strictly positive energy whenever the `Jump` component
is attached, `player_jump` is the identity. -/
theorem player_jump_dt_zero (input : PlayerInput) (s : PlayerState)
    (hpos : ∀ e, s.jump = some e → 0 < e) :
    player_jump input 0 s = s := by
  cases hj : s.jump with
  | none =>
    obtain ⟨⟨x, y⟩, j⟩ := s
    simp only at hj
    subst hj
    simp [player_jump]
  | some e =>
    have he : 0 < e := hpos e hj
    have h0 : (0 : ℚ) ⊓ e = 0 := min_eq_left he.le
    obtain ⟨⟨x, y⟩, j⟩ := s
    simp only at hj
    subst hj
    simp [player_jump, h0, not_le.mpr he, he, he.le]

/-- With `dt = 0` the fall step never moves the player: the candidate equals
the current position, so committing or discarding it changes nothing. -/
theorem player_fall_translation_dt_zero (obstacles : List (HitBox × Vec2))
    (p_hitbox : HitBox) (s : PlayerState) :
    (player_fall obstacles p_hitbox 0 s).translation = s.translation := by
  cases hj : s.jump with
  | some e => simp [player_fall, hj]
  | none =>
    obtain ⟨⟨x, y⟩, j⟩ := s
    simp only at hj
    subst hj
    simp only [player_fall, mul_zero, sub_zero]
    split <;> rfl

/-- C9: a tick with `dt = 0` is an identity on the player's position: for
every input combination, every attached `Jump` energy `e > 0` and every set of
obstacle hitboxes, running `move_player`, `player_jump` and `player_fall` with
`dt = 0` leaves both coordinates of the translation exactly unchanged. -/
theorem tick_dt_zero_identity :
    ∀ (obstacles : List (HitBox × Vec2)) (p_hitbox : HitBox)
      (input : PlayerInput) (s : PlayerState),
      (∀ e, s.jump = some e → 0 < e) →
      (tick obstacles p_hitbox input 0 s).translation = s.translation := by
  intro obstacles p_hitbox input s hpos
  unfold tick
  have hjump1 : ∀ e, (move_player input 0 s).jump = some e → 0 < e := by
    intro e he
    rw [move_player_jump_eq] at he
    by_cases hj : input.jumpJustPressed
    · rw [if_pos hj, Option.some.injEq] at he
      subst he
      norm_num
    · rw [if_neg hj] at he
      exact hpos e he
  rw [player_jump_dt_zero input (move_player input 0 s) hjump1,
    player_fall_translation_dt_zero,
    move_player_translation_dt_zero]

/-- Witness for C9: a `dt = 0` tick from a mid-jump state. -/
theorem tick_dt_zero_identity_witness :
    (tick [(⟨⟨200, 5⟩⟩, ⟨0, -16⟩)] ⟨⟨18, 32⟩⟩ ⟨false, true, true, false⟩ 0
        ⟨⟨1, 2⟩, some 100⟩).translation =
      (PlayerState.mk ⟨1, 2⟩ (some 100)).translation :=
  tick_dt_zero_identity [(⟨⟨200, 5⟩⟩, ⟨0, -16⟩)] ⟨⟨18, 32⟩⟩
    ⟨false, true, true, false⟩ ⟨⟨1, 2⟩, some 100⟩ (by
      intro e he
      rw [Option.some.injEq] at he
      subst he
      norm_num)

/-- Helper: `player_fall` never touches the `Jump` component. -/
theorem player_fall_jump_eq (obstacles : List (HitBox × Vec2))
    (p_hitbox : HitBox) (dt : ℚ) (s : PlayerState) :
    (player_fall obstacles p_hitbox dt s).jump = s.jump := by
  cases hj : s.jump with
  | some e => simp [player_fall, hj]
  | none =>
    simp only [player_fall, hj]
    split <;> simp [hj]

/-- The `Jump` component after one `player_jump` step from energy `e`:
removed when the drained energy is `≤ 0`, otherwise kept at its drained
value. -/
theorem player_jump_jump_eq (input : PlayerInput) (dt : ℚ) (s : PlayerState)
    (e : ℚ) (hj : s.jump = some e) :
    (player_jump input dt s).jump =
      (if e - (if input.jumpPressed = true then min (dt * FALL_SPEED * 2) e
               else min (dt * FALL_SPEED * 2) e * 2) ≤ 0 then none
       else some (e - (if input.jumpPressed = true
                       then min (dt * FALL_SPEED * 2) e
                       else min (dt * FALL_SPEED * 2) e * 2))) := by
  simp only [player_jump, hj]

/-- C7 counterexample: pressing the jump key again two ticks into a jump
(`dt = 1/10` per tick, energies `100 → 402/5 → 206/5`) re-attaches
`Jump(100.)` mid-jump, and the energy read at the next tick boundary RISES
from `206/5` to `402/5` — refuting "never re-added or reset mid-jump" and the
claimed tick-to-tick monotonic non-increase. -/
theorem jump_lifecycle_counterexample :
    (tick [] ⟨⟨18, 32⟩⟩ ⟨false, false, false, false⟩ (1 / 10)
      (tick [] ⟨⟨18, 32⟩⟩ ⟨true, true, false, false⟩ (1 / 10)
        ⟨⟨0, 0⟩, none⟩)).jump = some (206 / 5) ∧
    (tick [] ⟨⟨18, 32⟩⟩ ⟨true, true, false, false⟩ (1 / 10)
      (tick [] ⟨⟨18, 32⟩⟩ ⟨false, false, false, false⟩ (1 / 10)
        (tick [] ⟨⟨18, 32⟩⟩ ⟨true, true, false, false⟩ (1 / 10)
          ⟨⟨0, 0⟩, none⟩))).jump = some (402 / 5) ∧
    ¬ ((402 : ℚ) / 5 ≤ 206 / 5) := by
  refine ⟨?_, ?_, by norm_num⟩ <;>
    simp only [tick, move_player, player_jump, player_fall, FALL_SPEED,
      MOVE_SPEED, List.any_nil] <;>
    norm_num [min_def]

/-- C7 (amended): a jump rising edge attaches `Jump(100.)` even while a
`Jump` is already held, resetting its energy mid-jump; on ticks WITHOUT a
rising edge, while a `Jump` with energy `e > 0` is held (and `dt ≥ 0`), any
`Jump` surviving the tick has energy `e'` with `0 < e' ≤ e`, and the
component is removed exactly when the drained energy is `≤ 0`. -/
theorem jump_lifecycle_amended :
    (∀ (input : PlayerInput) (dt : ℚ) (s : PlayerState),
      input.jumpJustPressed = true → (move_player input dt s).jump = some 100) ∧
    (∀ (obstacles : List (HitBox × Vec2)) (p_hitbox : HitBox)
       (input : PlayerInput) (dt : ℚ) (s : PlayerState) (e : ℚ),
      input.jumpJustPressed = false → s.jump = some e → 0 < e → 0 ≤ dt →
      (∀ e', (tick obstacles p_hitbox input dt s).jump = some e' →
        e' ≤ e ∧ 0 < e') ∧
      ((tick obstacles p_hitbox input dt s).jump = none ↔
        e - (if input.jumpPressed = true then min (dt * FALL_SPEED * 2) e
             else 2 * min (dt * FALL_SPEED * 2) e) ≤ 0)) := by
  constructor
  · intro input dt s hedge
    rw [move_player_jump_eq, if_pos hedge]
  · intro obstacles p_hitbox input dt s e hedge hj he hdt
    have hmv : (move_player input dt s).jump = some e := by
      rw [move_player_jump_eq, if_neg (by simp [hedge]), hj]
    have hjp0 : 0 ≤ min (dt * FALL_SPEED * 2) e :=
      le_min (mul_nonneg (mul_nonneg hdt (by norm_num [FALL_SPEED]))
        (by norm_num)) he.le
    have htickj : (tick obstacles p_hitbox input dt s).jump =
        (player_jump input dt (move_player input dt s)).jump := by
      unfold tick
      rw [player_fall_jump_eq]
    rw [htickj, player_jump_jump_eq input dt (move_player input dt s) e hmv]
    rw [show min (dt * FALL_SPEED * 2) e * 2 = 2 * min (dt * FALL_SPEED * 2) e
      from mul_comm _ _]
    set jp := min (dt * FALL_SPEED * 2) e with hjpdef
    set d := if input.jumpPressed = true then jp else 2 * jp with hddef
    have hd : jp ≤ d := by
      rw [hddef]
      split
      · exact le_refl jp
      · linarith
    by_cases hle : e - d ≤ 0
    · rw [if_pos hle]
      refine ⟨fun e' he' => absurd he' (by simp), iff_of_true rfl hle⟩
    · rw [if_neg hle]
      constructor
      · intro e' he'
        rw [Option.some.injEq] at he'
        subst he'
        constructor
        · linarith
        · linarith [not_le.mp hle]
      · exact iff_of_false (by simp) hle

/-- Witness for the amended C7: one edgeless tick from energy `100` with the
jump keys released. -/
theorem jump_lifecycle_amended_witness :
    (tick [] ⟨⟨18, 32⟩⟩ ⟨false, false, false, false⟩ (1 / 10)
        ⟨⟨0, 0⟩, some 100⟩).jump = none ↔
      100 - (if (PlayerInput.mk false false false false).jumpPressed = true
             then min ((1 / 10) * FALL_SPEED * 2) 100
             else 2 * min ((1 / 10) * FALL_SPEED * 2) 100) ≤ 0 :=
  (jump_lifecycle_amended.2 [] ⟨⟨18, 32⟩⟩ ⟨false, false, false, false⟩ (1 / 10)
    ⟨⟨0, 0⟩, some 100⟩ 100 rfl rfl (by norm_num) (by norm_num)).2

/-- C8: for every animation descriptor with `frame_count > 0` and every
starting `frame_index` in `[0, frame_count)`, one `animate_sprite` update
leaves `frame_index` in `[0, frame_count)`, for every `dt` and every
accumulated time. -/
theorem animate_sprite_index_invariant :
    ∀ (animation : SpriteAnimation) (dt : ℚ) (st : AnimState),
      0 < animation.len → st.index < animation.len →
      (animate_sprite animation dt st).index < animation.len := by
  intro animation dt st hlen hidx
  simp only [animate_sprite]
  split
  · simp only [ge_iff_le]
    split
    · exact Nat.mod_lt _ hlen
    · next h => exact Nat.lt_of_not_le h
  · exact hidx

/-- Witness for C8 at the idle animation's parameters. -/
theorem animate_sprite_index_invariant_witness :
    (animate_sprite ⟨6, 1 / 5⟩ (9 / 20) ⟨5, 0⟩).index < 6 :=
  animate_sprite_index_invariant ⟨6, 1 / 5⟩ (9 / 20) ⟨5, 0⟩ (by norm_num)
    (by norm_num)

/-- One `player_jump` step never increases `y + jumpEnergy` (for `dt ≥ 0` and
energy positive whenever `Jump` is attached), and preserves that positivity. -/
theorem player_jump_phi_step (input : PlayerInput) (dt : ℚ) (s : PlayerState)
    (hdt : 0 ≤ dt) (hpos : ∀ e, s.jump = some e → 0 < e) :
    (player_jump input dt s).translation.y +
        jumpEnergy (player_jump input dt s) ≤
      s.translation.y + jumpEnergy s ∧
    (∀ e, (player_jump input dt s).jump = some e → 0 < e) := by
  cases hj : s.jump with
  | none =>
    have hid : player_jump input dt s = s := by
      simp only [player_jump, hj]
    rw [hid]
    exact ⟨le_refl _, hpos⟩
  | some e =>
    have he : 0 < e := hpos e hj
    have hjp0 : 0 ≤ min (dt * FALL_SPEED * 2) e :=
      le_min (mul_nonneg (mul_nonneg hdt (by norm_num [FALL_SPEED]))
        (by norm_num)) he.le
    have hjple : min (dt * FALL_SPEED * 2) e ≤ e := min_le_right _ _
    simp only [player_jump, hj]
    set jp := min (dt * FALL_SPEED * 2) e with hjpdef
    set d := if input.jumpPressed = true then jp else jp * 2 with hddef
    have hd : jp ≤ d := by
      rw [hddef]
      split
      · exact le_refl jp
      · linarith
    by_cases hle : e - d ≤ 0
    · rw [if_pos hle]
      refine ⟨?_, fun e' he' => absurd he' (by simp [jumpEnergy])⟩
      simp only [jumpEnergy, hj]
      linarith
    · rw [if_neg hle]
      refine ⟨?_, fun e' he' => ?_⟩
      · simp only [jumpEnergy, hj]
        linarith
      · simp only [jumpEnergy, Option.some.injEq] at he'
        subst he'
        linarith [not_le.mp hle]

/-- Any run of `player_jump` steps with non-negative deltas never increases
`y + jumpEnergy` and keeps attached energies positive. -/
theorem jump_run_phi (steps : List (PlayerInput × ℚ)) (s : PlayerState)
    (hdts : ∀ p ∈ steps, 0 ≤ p.2) (hpos : ∀ e, s.jump = some e → 0 < e) :
    (jump_run steps s).translation.y + jumpEnergy (jump_run steps s) ≤
      s.translation.y + jumpEnergy s ∧
    (∀ e, (jump_run steps s).jump = some e → 0 < e) := by
  induction steps generalizing s with
  | nil => exact ⟨le_refl _, hpos⟩
  | cons p ps ih =>
    have hdt : 0 ≤ p.2 := hdts p (List.mem_cons_self p ps)
    have hstep := player_jump_phi_step p.1 p.2 s hdt hpos
    have hrest := ih (player_jump p.1 p.2 s)
      (fun q hq => hdts q (List.mem_cons_of_mem p hq)) hstep.2
    have hrun : jump_run (p :: ps) s = jump_run ps (player_jump p.1 p.2 s) := by
      simp [jump_run]
    rw [hrun]
    exact ⟨le_trans hrest.1 hstep.1, hrest.2⟩

/-- C10: in one `player_jump` execution with `dt ≥ 0` and attached energy
`e > 0`, the rise `jump_power` is at most the energy drained, so
`y + remaining energy` never increases; consequently the total ascent of a
whole `player_jump` run from energy `100` (no re-attachment) is at most
`100` units. -/
theorem jump_ascent_bound :
    (∀ (input : PlayerInput) (dt : ℚ) (s : PlayerState) (e : ℚ),
      s.jump = some e → 0 ≤ dt → 0 < e →
      min (dt * FALL_SPEED * 2) e ≤
        (if input.jumpPressed = true then min (dt * FALL_SPEED * 2) e
         else 2 * min (dt * FALL_SPEED * 2) e) ∧
      (player_jump input dt s).translation.y +
          jumpEnergy (player_jump input dt s) ≤
        s.translation.y + e) ∧
    (∀ (steps : List (PlayerInput × ℚ)) (s : PlayerState),
      s.jump = some 100 → (∀ p ∈ steps, 0 ≤ p.2) →
      (jump_run steps s).translation.y ≤ s.translation.y + 100) := by
  constructor
  · intro input dt s e hj hdt he
    have hpos : ∀ e', s.jump = some e' → 0 < e' := by
      intro e' he'
      rw [hj, Option.some.injEq] at he'
      subst he'
      exact he
    have hjp0 : 0 ≤ min (dt * FALL_SPEED * 2) e :=
      le_min (mul_nonneg (mul_nonneg hdt (by norm_num [FALL_SPEED]))
        (by norm_num)) he.le
    constructor
    · split
      · exact le_refl _
      · linarith
    · have h := (player_jump_phi_step input dt s hdt hpos).1
      have hse : jumpEnergy s = e := by simp [jumpEnergy, hj]
      rw [hse] at h
      exact h
  · intro steps s hj hdts
    have hpos : ∀ e, s.jump = some e → 0 < e := by
      intro e he
      rw [hj, Option.some.injEq] at he
      subst he
      norm_num
    have h := jump_run_phi steps s hdts hpos
    have henergy : 0 ≤ jumpEnergy (jump_run steps s) := by
      cases hjr : (jump_run steps s).jump with
      | none => simp [jumpEnergy, hjr]
      | some e => exact le_of_lt (by simpa [jumpEnergy, hjr] using h.2 e hjr)
    have hs : jumpEnergy s = 100 := by simp [jumpEnergy, hj]
    have h1 := h.1
    rw [hs] at h1
    linarith

/-- Witness for C10: a one-step run with `dt = 1/10`, jump keys held. -/
theorem jump_ascent_bound_witness :
    (jump_run [(⟨false, true, false, false⟩, 1 / 10)]
        ⟨⟨0, 0⟩, some 100⟩).translation.y ≤
      (PlayerState.mk ⟨0, 0⟩ (some 100)).translation.y + 100 :=
  jump_ascent_bound.2 [(⟨false, true, false, false⟩, 1 / 10)]
    ⟨⟨0, 0⟩, some 100⟩ rfl (by
      intro p hp
      rw [List.mem_singleton] at hp
      subst hp
      norm_num)
